import Mathlib

/-!
Verification development for `ini_swap.py`, a transaction-submission bot for
the IniChain testnet.  The Python source is shallowly embedded: every
fallible remote interaction (broadcast, receipt polling, nonce fetch) is
driven by an explicit environment script, exceptions become an `Err` sum
type, and the mutable-dict state of `send_tx` is an explicit heap of
`TxData` records so that Python's reference/`.copy()` semantics are modelled
faithfully.  Each embedded function mirrors one Python function:

* `callWithRetries`  ~ `call_with_retries`   (lines 93-145)
* `waitForTxReceiptWithRetry` ~ `wait_for_tx_receipt_with_retry` (150-163)
* `sendTx` / `sendTxGo` ~ `send_tx`          (lines 177-221)
* `swapIniToUsdt`    ~ `swap_ini_to_usdt`    (lines 264-297)
* `approveUsdt`      ~ `approve_usdt`        (lines 243-259)

Traces of events (operation invocations, provider re-initialisations,
sleeps, signings, polls) are produced alongside results so that properties
about retry counts, reconnects and signed payloads can be stated.
-/

/-- Exceptions that cross function boundaries in the script.
`connection` is `requests.exceptions.ConnectionError`; `underpriced` is a
`ValueError` whose message contains `replacement transaction underpriced`
or `code -32000`; `valueErr` is any other `ValueError` (message abstracted
to a number); `fatal` is any other exception class; `timeExhausted` is
`web3.exceptions.TimeExhausted`; `allFailed` is the terminal
`[send_tx] All attempts to send transaction have failed` exception;
`noneHash` stands for the `AttributeError` that would arise from using a
`None` transaction hash. -/
inductive Err where
  | connection
  | underpriced
  | valueErr (msg : Nat)
  | fatal (code : Nat)
  | timeExhausted
  | allFailed
  | noneHash
deriving DecidableEq

/-- Events recorded by `call_with_retries`: an invocation of the wrapped
operation (with its 1-based attempt number), a `init_web3()` provider
re-initialisation, and a `time.sleep` backoff. -/
inductive Ev where
  | invoke (attempt : Nat)
  | reinit
  | sleep
deriving DecidableEq

/-- Whether an event is an invocation of the wrapped operation. -/
def Ev.isInvoke : Ev → Bool
  | .invoke _ => true
  | _ => false

/-- Whether an event is the invocation with attempt number `k`. -/
def Ev.isInvokeAt (k : Nat) : Ev → Bool
  | .invoke j => j == k
  | _ => false

/-- Whether an event is a provider re-initialisation. -/
def Ev.isReinit : Ev → Bool
  | .reinit => true
  | _ => false

/-- Outcome of one invocation of an operation wrapped by
`call_with_retries`, as classified by its `except` clauses: a returned
value, a `ConnectionError`, a retryable `ValueError` (message containing
`replacement transaction underpriced` or `code -32000`), any other
`ValueError`, or any other exception. -/
inductive CallOutcome (α : Type) where
  | ok (a : α)
  | connErr
  | valueErrRetryable
  | valueErrOther (msg : Nat)
  | otherExc (code : Nat)
deriving DecidableEq

/-- Whether an invocation outcome is a normal return. -/
def CallOutcome.isOk {α : Type} : CallOutcome α → Bool
  | .ok _ => true
  | _ => false

/-- Loop body of `call_with_retries` (`for attempt in range(1, max_tries+1)`),
embedded with explicit fuel `rem` (the number of loop iterations left);
`script k` is the outcome of the `k`-th invocation of `func`.  Falling off
the end of the loop returns Python's implicit `None`, modelled as
`.ok none`.  Returns the result together with the event trace. -/
def cwrGo {α : Type} (script : Nat → CallOutcome α) (maxTries : Nat) (reinitFlag : Bool) :
    Nat → Nat → Except Err (Option α) × List Ev
  | _, 0 => (.ok none, [])
  | attempt, rem+1 =>
    match script attempt with
    | .ok a => (.ok (some a), [.invoke attempt])
    | .connErr =>
      if attempt < maxTries then
        let r := cwrGo script maxTries reinitFlag (attempt+1) rem
        (r.1, (.invoke attempt :: (if reinitFlag then [.reinit] else [])) ++ .sleep :: r.2)
      else
        (.error .connection, .invoke attempt :: (if reinitFlag then [.reinit] else []))
    | .valueErrRetryable =>
      if attempt < maxTries then
        let r := cwrGo script maxTries reinitFlag (attempt+1) rem
        (r.1, .invoke attempt :: .sleep :: r.2)
      else
        (.error .underpriced, [.invoke attempt])
    | .valueErrOther m =>
      if attempt < maxTries then
        let r := cwrGo script maxTries reinitFlag (attempt+1) rem
        (r.1, .invoke attempt :: .sleep :: r.2)
      else
        (.error (.valueErr m), [.invoke attempt])
    | .otherExc c =>
      if attempt < maxTries then
        let r := cwrGo script maxTries reinitFlag (attempt+1) rem
        (r.1, (.invoke attempt :: (if reinitFlag then [.reinit] else [])) ++ .sleep :: r.2)
      else
        (.error (.fatal c), .invoke attempt :: (if reinitFlag then [.reinit] else []))

/-- `call_with_retries(func, max_tries, sleep_seconds, reinit_on_error)`:
invokes the scripted operation up to `maxTries` times, re-initialising the
provider on `ConnectionError` (and on unrecognised exceptions) when
`reinitFlag` is set, sleeping between attempts, re-raising the last error
once attempts are exhausted. -/
def callWithRetries {α : Type} (script : Nat → CallOutcome α) (maxTries : Nat)
    (reinitFlag : Bool) : Except Err (Option α) × List Ev :=
  cwrGo script maxTries reinitFlag 1 maxTries

/-- Number of operation invocations in a `call_with_retries` trace. -/
def invokeCount (tr : List Ev) : Nat := tr.countP Ev.isInvoke

/-- Number of provider re-initialisations in a `call_with_retries` trace. -/
def reinitCount (tr : List Ev) : Nat := tr.countP Ev.isReinit

/-- Number of provider re-initialisations strictly between the invocation
with attempt number `k` and the next invocation (or the end of the trace). -/
def reinitsBetween (tr : List Ev) (k : Nat) : Nat :=
  ((((tr.dropWhile (fun e => !(e.isInvokeAt k))).drop 1).takeWhile
      (fun e => !(e.isInvoke))).countP Ev.isReinit)

/-- A transaction receipt as consumed by the bot: block reference,
gas consumed, and inclusion status. -/
structure Receipt where
  blockNumber : Nat
  gasUsed : Nat
  status : Nat
deriving DecidableEq, Inhabited

/-- Outcome of one `web3.eth.wait_for_transaction_receipt` round: either the
receipt arrives within the round's timeout, or `TimeExhausted` is raised. -/
inductive WaitOutcome where
  | included (r : Receipt)
  | timedOut
deriving DecidableEq

/-- One polling round performed by `wait_for_tx_receipt_with_retry`,
recording its attempt number and the `timeout`/`poll_latency` parameters it
was launched with. -/
inductive WaitEv where
  | poll (attempt timeout pollLatency : Nat)
deriving DecidableEq

/-- Loop body of `wait_for_tx_receipt_with_retry` with explicit fuel.
Each iteration launches one full polling round; on `TimeExhausted` the
round is retried while attempts remain, otherwise the exception is
re-raised.  Falling off the loop returns Python's implicit `None`. -/
def waitGo (script : Nat → WaitOutcome) (timeout pollLatency maxTries : Nat) :
    Nat → Nat → Except Err (Option Receipt) × List WaitEv
  | _, 0 => (.ok none, [])
  | attempt, rem+1 =>
    match script attempt with
    | .included r => (.ok (some r), [.poll attempt timeout pollLatency])
    | .timedOut =>
      if attempt < maxTries then
        let r := waitGo script timeout pollLatency maxTries (attempt+1) rem
        (r.1, .poll attempt timeout pollLatency :: r.2)
      else
        (.error .timeExhausted, [.poll attempt timeout pollLatency])

/-- `wait_for_tx_receipt_with_retry(tx_hash, timeout, poll_latency, max_tries)`:
runs up to `maxTries` polling rounds of the same `timeout` each, re-raising
`TimeExhausted` after the final round. -/
def waitForTxReceiptWithRetry (script : Nat → WaitOutcome)
    (timeout pollLatency maxTries : Nat) : Except Err (Option Receipt) × List WaitEv :=
  waitGo script timeout pollLatency maxTries 1 maxTries

/-- Default `timeout` of `wait_for_tx_receipt_with_retry` (seconds). -/
def waitDefaultTimeout : Nat := 300

/-- Default `poll_latency` of `wait_for_tx_receipt_with_retry` (seconds). -/
def waitDefaultPollLatency : Nat := 5

/-- Default `max_tries` of `wait_for_tx_receipt_with_retry`. -/
def waitDefaultMaxTries : Nat := 2

/-- A transaction dictionary as built by `build_transaction`: sender,
target contract, nonce, gas price (wei), gas limit, attached value (wei)
and the encoded call data (abstracted to a number). -/
structure TxData where
  sender : Nat
  toAddr : Nat
  nonce : Nat
  gasPrice : Nat
  gas : Nat
  value : Nat
  payload : Nat
deriving DecidableEq, Inhabited

/-- Gas-price escalation `new_gas = int(old_gas * 1.2)` (line 198).
Python computes `old_gas * 1.2` in double precision and truncates.  The
double nearest to `1.2` is `5404319552844595 / 2^52`, slightly below `6/5`;
for every gas price below `2^49` the rounded product lies in
`[⌊6g/5⌋, ⌊6g/5⌋ + 1)` (when `5 ∣ g` the rounding error is under half an
ulp, so the product rounds up to exactly `6g/5`), hence the truncation
equals `6 * g / 5` in natural-number division throughout the program's
range (prices start at 10 gwei = 10^10). -/
def bumpGas (g : Nat) : Nat := g * 6 / 5

/-- The `tx_local['gasPrice'] = new_gas` update (line 199). -/
def bumpTx (tx : TxData) : TxData := { tx with gasPrice := bumpGas tx.gasPrice }

/-- Outcome of one `do_send` invocation (sign + `send_raw_transaction`),
as distinguished by the exception handlers of `send_tx`:
success with a transaction hash, the retryable `replacement transaction
underpriced` / `code -32000` `ValueError`, a `ConnectionError`, any other
`ValueError`, or any other exception class. -/
inductive SendOutcome where
  | success (txHash : Nat)
  | underpriced
  | connectionError
  | otherValue (msg : Nat)
  | otherExc (code : Nat)
deriving DecidableEq

/-- How a `do_send` outcome appears to the inner `call_with_retries`. -/
def sendOutcomeToCall : SendOutcome → CallOutcome Nat
  | .success h => .ok h
  | .underpriced => .valueErrRetryable
  | .connectionError => .connErr
  | .otherValue m => .valueErrOther m
  | .otherExc c => .otherExc c

/-- Whether a `do_send` outcome is one of the failures that `send_tx`'s own
loop catches and retries (a `ValueError` of either kind, or a
`ConnectionError`). -/
def SendOutcome.retryableFail : SendOutcome → Bool
  | .underpriced => true
  | .connectionError => true
  | .otherValue _ => true
  | _ => false

/-- The exception `send_tx` re-raises when the attempt that saw this
outcome was the last one. -/
def errOfOutcome : SendOutcome → Err
  | .success _ => .allFailed
  | .underpriced => .underpriced
  | .connectionError => .connection
  | .otherValue m => .valueErr m
  | .otherExc c => .fatal c

/-- Effect of one attempt's outcome on `tx_local`: only the
`underpriced` handler mutates it (the gas bump); every other handler
leaves it untouched. -/
def applyOutcome (o : SendOutcome) (tx : TxData) : TxData :=
  match o with
  | .underpriced => bumpTx tx
  | _ => tx

/-- The value of `tx_local` signed on attempt `a + i` given that it held
`tx` on attempt `a`: the outcomes of attempts `a, …, a+i-1` are applied in
order. -/
def txAtFrom (script : Nat → SendOutcome) (tx : TxData) (a : Nat) : Nat → TxData
  | 0 => tx
  | i+1 => applyOutcome (script (a + i)) (txAtFrom script tx a i)

/-- Events recorded by `send_tx`: a signing + broadcast of the current
`tx_local` (with attempt number and resulting outcome), re-initialisations
and sleeps performed inside the inner `call_with_retries`, and the
re-initialisation / sleep performed by `send_tx`'s own `ConnectionError`
handler and backoffs. -/
inductive SendEv where
  | signed (attempt : Nat) (tx : TxData) (outcome : SendOutcome)
  | innerReinit
  | innerSleep
  | outerReinit
  | outerSleep
deriving DecidableEq

/-- Rendering of an inner `call_with_retries` event inside `send_tx`'s
trace: the single invocation of `do_send` signs the current `tx_local`. -/
def liftInner (attempt : Nat) (tx : TxData) (o : SendOutcome) : Ev → SendEv
  | .invoke _ => .signed attempt tx o
  | .reinit => .innerReinit
  | .sleep => .innerSleep

/-- Projection of a signing event. -/
def SendEv.signedData : SendEv → Option (Nat × TxData × SendOutcome)
  | .signed k tx o => some (k, tx, o)
  | _ => none

/-- The signing events of a `send_tx` trace, in order. -/
def signedTxs (tr : List SendEv) : List (Nat × TxData × SendOutcome) :=
  tr.filterMap SendEv.signedData

/-- Number of sign-and-broadcast invocations in a `send_tx` trace. -/
def signedCount (tr : List SendEv) : Nat := (signedTxs tr).length

/-- The gas prices of the successive signed payloads. -/
def signedGasPrices (tr : List SendEv) : List Nat :=
  (signedTxs tr).map (fun x => x.2.1.gasPrice)

/-- The nonce of the payload signed on attempt `k`, when that attempt
appears in the trace. -/
def signedNonceAt (tr : List SendEv) (k : Nat) : Option Nat :=
  (signedTxs tr).findSome? (fun x => if x.1 = k then some x.2.1.nonce else none)

/-- The gas price of the signed payload whose broadcast succeeded (the
winning attempt), if any. -/
def winningGasPrice (tr : List SendEv) : Option Nat :=
  (tr.filterMap (fun e =>
    match e with
    | .signed _ tx (.success _) => some tx.gasPrice
    | _ => none)).head?

/-- Loop body of `send_tx` with explicit fuel.  The heap is the store of
live transaction dicts; `lr` is the reference to `tx_local`.  Each
iteration runs `call_with_retries(func=do_send, max_tries=1)` (the genuine
nested call, with `reinit_on_error` left at its default `True`), then
dispatches on the raised error exactly as the `except` clauses of
`send_tx` do.  Exhausting the loop raises the terminal
`All attempts to send transaction have failed` exception. -/
def sendTxGo (script : Nat → SendOutcome) (maxTries lr : Nat) :
    Nat → Nat → List TxData → Except Err (Option Nat) × List TxData × List SendEv
  | _, 0, heap => (.error .allFailed, heap, [])
  | attempt, rem+1, heap =>
    let txLocal := heap.getD lr default
    let inner := callWithRetries (fun _ => sendOutcomeToCall (script attempt)) 1 true
    let evs := inner.2.map (liftInner attempt txLocal (script attempt))
    match inner.1 with
    | .ok h => (.ok h, heap, evs)
    | .error .underpriced =>
      let heap' := heap.set lr (bumpTx txLocal)
      if attempt < maxTries then
        let r := sendTxGo script maxTries lr (attempt+1) rem heap'
        (r.1, r.2.1, evs ++ .outerSleep :: r.2.2)
      else
        (.error .underpriced, heap', evs)
    | .error (.valueErr m) =>
      if attempt < maxTries then
        let r := sendTxGo script maxTries lr (attempt+1) rem heap
        (r.1, r.2.1, evs ++ .outerSleep :: r.2.2)
      else
        (.error (.valueErr m), heap, evs)
    | .error .connection =>
      if attempt < maxTries then
        let r := sendTxGo script maxTries lr (attempt+1) rem heap
        (r.1, r.2.1, evs ++ .outerReinit :: .outerSleep :: r.2.2)
      else
        (.error .connection, heap, evs ++ [.outerReinit])
    | .error e => (.error e, heap, evs)

/-- `send_tx(tx_data, private_key, max_tries)`: performs
`tx_local = tx_data.copy()` (a fresh heap cell) and runs the retry loop on
the copy.  `txRef` is the caller's reference to `tx_data`.  Returns the
result, the final heap, and the event trace. -/
def sendTx (script : Nat → SendOutcome) (heap : List TxData) (txRef maxTries : Nat) :
    Except Err (Option Nat) × List TxData × List SendEv :=
  sendTxGo script maxTries heap.length 1 maxTries (heap ++ [heap.getD txRef default])

/-- The configured IniChain swap-router contract address. -/
def routerAddress : Nat := 0x4ccB784744969D9B63C15cF07E622DDA65A88Ee7

/-- The configured USDT token contract address. -/
def usdtAddress : Nat := 0xcF259Bca0315C6D32e877793B6a10e97e7647FdE

/-- Opaque stand-in for the configured wallet address. -/
def walletAddress : Nat := 0

/-- `web3.to_wei('10', 'gwei')`, the starting gas price of every built
transaction. -/
def initialGasPriceWei : Nat := 10000000000

/-- `swap_ini_to_usdt`: builds the swap transaction (nonce from the
pending-count fetch `pending 1` performed inside `do_build`, gas price
10 gwei, gas 300000), submits it via `send_tx` with `max_tries=3`, waits
for the receipt (timeout 300, poll latency 5, default 2 rounds), and
reports the fee `receipt.gasUsed * tx_data['gasPrice']`, reading
`tx_data` — the caller's dict, heap cell 0 — after `send_tx` returns.
Returns the reported fee in wei (or the propagated error) and the
`send_tx` trace. -/
def swapIniToUsdt (pending : Nat → Nat) (sendScript : Nat → SendOutcome)
    (waitScript : Nat → WaitOutcome) (amountInWei minOutWei : Nat) :
    Except Err Nat × List SendEv :=
  let txData : TxData :=
    { sender := walletAddress, toAddr := routerAddress, nonce := pending 1,
      gasPrice := initialGasPriceWei, gas := 300000, value := amountInWei,
      payload := minOutWei }
  let s := sendTx sendScript [txData] 0 3
  match s.1 with
  | .error e => (.error e, s.2.2)
  | .ok none => (.error .noneHash, s.2.2)
  | .ok (some _) =>
    match (waitForTxReceiptWithRetry waitScript 300 5 waitDefaultMaxTries).1 with
    | .error e => (.error e, s.2.2)
    | .ok none => (.error .noneHash, s.2.2)
    | .ok (some receipt) =>
      (.ok (receipt.gasUsed * (s.2.1.getD 0 default).gasPrice), s.2.2)

/-- `approve_usdt(spend_amount_wei)`: builds the approval transaction
(nonce from the fetch `pending 1` inside `do_build`, gas price 10 gwei,
gas 100000), submits it via `send_tx` with `max_tries=3`, and waits for
the receipt.  Returns the receipt result and the `send_tx` trace. -/
def approveUsdt (pending : Nat → Nat) (sendScript : Nat → SendOutcome)
    (waitScript : Nat → WaitOutcome) (spendAmountWei : Nat) :
    Except Err (Option Receipt) × List SendEv :=
  let txData : TxData :=
    { sender := walletAddress, toAddr := usdtAddress, nonce := pending 1,
      gasPrice := initialGasPriceWei, gas := 100000, value := 0,
      payload := spendAmountWei }
  let s := sendTx sendScript [txData] 0 3
  match s.1 with
  | .error e => (.error e, s.2.2)
  | .ok none => (.error .noneHash, s.2.2)
  | .ok (some _) =>
    ((waitForTxReceiptWithRetry waitScript 300 5 waitDefaultMaxTries).1, s.2.2)

/-- Modelled from the spec: the per-bump escalation the spec asserts,
`⌈previous price × 1.2⌉` (integer ceiling of `6g/5`). -/
def specCeilBump (g : Nat) : Nat := (6 * g + 4) / 5

/-- Modelled from the spec: the price the spec predicts for attempt `k`,
`round(initial_price × 1.2^(k-1))`, rounding half to even as Python's
`round` does. -/
def specRoundPrice (p k : Nat) : Nat :=
  let num := p * 6 ^ (k - 1)
  let den := 5 ^ (k - 1)
  let q := num / den
  let r := num % den
  if 2 * r < den then q
  else if den < 2 * r then q + 1
  else if q % 2 = 0 then q else q + 1

/-- Environment script with `n` consecutive underpriced broadcasts followed
by acceptance with hash `h`. -/
def underpricedThenSuccess (n h : Nat) : Nat → SendOutcome :=
  fun j => if j ≤ n then .underpriced else .success h

/-- A sample built transaction used to instantiate theorems. -/
def sampleTx : TxData :=
  { sender := 0, toAddr := 3, nonce := 7, gasPrice := 10, gas := 21000,
    value := 5, payload := 4 }

/-! ### List helper lemmas -/

theorem listGetD_set_self {α : Type} (l : List α) (i : Nat) (v d : α)
    (h : i < l.length) : (l.set i v).getD i d = v := by
  induction l generalizing i with
  | nil => simp at h
  | cons x xs ih =>
    cases i with
    | zero => simp [List.set]
    | succ i' => simpa [List.set] using ih i' (by simpa using h)

theorem listGetD_set_ne {α : Type} (l : List α) (i j : Nat) (v d : α)
    (hij : i ≠ j) : (l.set i v).getD j d = l.getD j d := by
  induction l generalizing i j with
  | nil => simp [List.set]
  | cons x xs ih =>
    cases i with
    | zero =>
      cases j with
      | zero => exact absurd rfl hij
      | succ j' => simp [List.set]
    | succ i' =>
      cases j with
      | zero => simp [List.set]
      | succ j' => simpa [List.set] using ih i' j' (by omega)

theorem listGetD_append_left {α : Type} (l l' : List α) (j : Nat) (d : α)
    (h : j < l.length) : (l ++ l').getD j d = l.getD j d := by
  induction l generalizing j with
  | nil => simp at h
  | cons x xs ih =>
    cases j with
    | zero => simp
    | succ j' => simpa using ih j' (by simpa using h)

theorem listGetD_concat_length {α : Type} (l : List α) (x d : α) :
    (l ++ [x]).getD l.length d = x := by
  induction l with
  | nil => simp [List.getD]
  | cons y ys ih => simp [ih]

theorem listMapCongr {α β : Type} (f g : α → β) :
    ∀ l : List α, (∀ a ∈ l, f a = g a) → l.map f = l.map g := by
  intro l
  induction l with
  | nil => intro _; rfl
  | cons x xs ih =>
    intro h
    simp only [List.map_cons]
    rw [h x (by simp), ih (fun a ha => h a (by simp [ha]))]

/-! ### Evaluation of the inner single-attempt `call_with_retries` -/

theorem inner_success (n : Nat) :
    callWithRetries (fun _ => sendOutcomeToCall (.success n)) 1 true =
      (.ok (some n), [.invoke 1]) := rfl

theorem inner_underpriced :
    callWithRetries (fun _ => sendOutcomeToCall .underpriced) 1 true =
      (.error .underpriced, [.invoke 1]) := rfl

theorem inner_conn :
    callWithRetries (fun _ => sendOutcomeToCall .connectionError) 1 true =
      (.error .connection, [.invoke 1, .reinit]) := rfl

theorem inner_vother (m : Nat) :
    callWithRetries (fun _ => sendOutcomeToCall (.otherValue m)) 1 true =
      (.error (.valueErr m), [.invoke 1]) := rfl

theorem inner_exc (c : Nat) :
    callWithRetries (fun _ => sendOutcomeToCall (.otherExc c)) 1 true =
      (.error (.fatal c), [.invoke 1, .reinit]) := rfl

/-! ### Step lemmas for the `send_tx` loop -/

theorem sendTxGo_succ (script : Nat → SendOutcome) (mt lr a r : Nat)
    (heap : List TxData) (n : Nat) (ho : script a = .success n) :
    sendTxGo script mt lr a (r+1) heap =
      (.ok (some n), heap, [.signed a (heap.getD lr default) (.success n)]) := by
  simp [sendTxGo, ho, inner_success, liftInner]

theorem sendTxGo_under_cont (script : Nat → SendOutcome) (mt lr a r : Nat)
    (heap : List TxData) (ho : script a = .underpriced) (hlt : a < mt) :
    sendTxGo script mt lr a (r+1) heap =
      ((sendTxGo script mt lr (a+1) r (heap.set lr (bumpTx (heap.getD lr default)))).1,
       (sendTxGo script mt lr (a+1) r (heap.set lr (bumpTx (heap.getD lr default)))).2.1,
       .signed a (heap.getD lr default) .underpriced :: .outerSleep ::
         (sendTxGo script mt lr (a+1) r (heap.set lr (bumpTx (heap.getD lr default)))).2.2) := by
  simp [sendTxGo, ho, inner_underpriced, liftInner, hlt]

theorem sendTxGo_under_last (script : Nat → SendOutcome) (mt lr a r : Nat)
    (heap : List TxData) (ho : script a = .underpriced) (hge : ¬ a < mt) :
    sendTxGo script mt lr a (r+1) heap =
      (.error .underpriced, heap.set lr (bumpTx (heap.getD lr default)),
       [.signed a (heap.getD lr default) .underpriced]) := by
  simp [sendTxGo, ho, inner_underpriced, liftInner, hge]

theorem sendTxGo_vother_cont (script : Nat → SendOutcome) (mt lr a r : Nat)
    (heap : List TxData) (m : Nat) (ho : script a = .otherValue m) (hlt : a < mt) :
    sendTxGo script mt lr a (r+1) heap =
      ((sendTxGo script mt lr (a+1) r heap).1,
       (sendTxGo script mt lr (a+1) r heap).2.1,
       .signed a (heap.getD lr default) (.otherValue m) :: .outerSleep ::
         (sendTxGo script mt lr (a+1) r heap).2.2) := by
  simp [sendTxGo, ho, inner_vother, liftInner, hlt]

theorem sendTxGo_vother_last (script : Nat → SendOutcome) (mt lr a r : Nat)
    (heap : List TxData) (m : Nat) (ho : script a = .otherValue m) (hge : ¬ a < mt) :
    sendTxGo script mt lr a (r+1) heap =
      (.error (.valueErr m), heap,
       [.signed a (heap.getD lr default) (.otherValue m)]) := by
  simp [sendTxGo, ho, inner_vother, liftInner, hge]

theorem sendTxGo_conn_cont (script : Nat → SendOutcome) (mt lr a r : Nat)
    (heap : List TxData) (ho : script a = .connectionError) (hlt : a < mt) :
    sendTxGo script mt lr a (r+1) heap =
      ((sendTxGo script mt lr (a+1) r heap).1,
       (sendTxGo script mt lr (a+1) r heap).2.1,
       .signed a (heap.getD lr default) .connectionError :: .innerReinit ::
         .outerReinit :: .outerSleep :: (sendTxGo script mt lr (a+1) r heap).2.2) := by
  simp [sendTxGo, ho, inner_conn, liftInner, hlt]

theorem sendTxGo_conn_last (script : Nat → SendOutcome) (mt lr a r : Nat)
    (heap : List TxData) (ho : script a = .connectionError) (hge : ¬ a < mt) :
    sendTxGo script mt lr a (r+1) heap =
      (.error .connection, heap,
       [.signed a (heap.getD lr default) .connectionError, .innerReinit, .outerReinit]) := by
  simp [sendTxGo, ho, inner_conn, liftInner, hge]

theorem sendTxGo_exc (script : Nat → SendOutcome) (mt lr a r : Nat)
    (heap : List TxData) (c : Nat) (ho : script a = .otherExc c) :
    sendTxGo script mt lr a (r+1) heap =
      (.error (.fatal c), heap,
       [.signed a (heap.getD lr default) (.otherExc c), .innerReinit]) := by
  simp [sendTxGo, ho, inner_exc, liftInner]

/-! ### The evolution of `tx_local` across attempts -/

theorem txAtFrom_shift (script : Nat → SendOutcome) (tx : TxData) (a : Nat) :
    ∀ i, txAtFrom script (applyOutcome (script a) tx) (a + 1) i = txAtFrom script tx a (i + 1) := by
  intro i
  induction i with
  | zero => rfl
  | succ i ih =>
    simp only [txAtFrom]
    rw [ih]
    have h : a + 1 + i = a + (i + 1) := by omega
    rw [h]
    rfl

theorem txAtFrom_nonce (script : Nat → SendOutcome) (tx : TxData) (a : Nat) :
    ∀ i, (txAtFrom script tx a i).nonce = tx.nonce := by
  intro i
  induction i with
  | zero => rfl
  | succ i ih =>
    simp only [txAtFrom]
    cases script (a + i) <;> simp [applyOutcome, bumpTx, ih]

theorem signedTxs_nil : signedTxs [] = [] := rfl

theorem signedTxs_cons_signed (k : Nat) (tx : TxData) (o : SendOutcome) (l : List SendEv) :
    signedTxs (.signed k tx o :: l) = (k, tx, o) :: signedTxs l := rfl

theorem signedTxs_cons_innerReinit (l : List SendEv) :
    signedTxs (.innerReinit :: l) = signedTxs l := rfl

theorem signedTxs_cons_innerSleep (l : List SendEv) :
    signedTxs (.innerSleep :: l) = signedTxs l := rfl

theorem signedTxs_cons_outerReinit (l : List SendEv) :
    signedTxs (.outerReinit :: l) = signedTxs l := rfl

theorem signedTxs_cons_outerSleep (l : List SendEv) :
    signedTxs (.outerSleep :: l) = signedTxs l := rfl

theorem range_map_signed_shift (script : Nat → SendOutcome) (tx0 : TxData) (a e : Nat) :
    (a, tx0, script a) ::
      (List.range e).map
        (fun i => (a + 1 + i, txAtFrom script (applyOutcome (script a) tx0) (a + 1) i,
          script (a + 1 + i))) =
    (List.range (e + 1)).map (fun i => (a + i, txAtFrom script tx0 a i, script (a + i))) := by
  rw [List.range_succ_eq_map]
  simp only [List.map_cons, List.map_map]
  congr 1
  refine listMapCongr _ _ _ (fun i _ => ?_)
  simp only [Function.comp_apply]
  rw [txAtFrom_shift]
  have h : a + 1 + i = a + (i + 1) := by omega
  rw [h]

theorem range_one_signed (script : Nat → SendOutcome) (tx0 : TxData) (a : Nat)
    (o : SendOutcome) (ho : script a = o) :
    [(a, tx0, o)] =
      (List.range 1).map (fun i => (a + i, txAtFrom script tx0 a i, script (a + i))) := by
  subst ho
  rfl

theorem range_succ_signed (script : Nat → SendOutcome) (tx0 : TxData) (a e : Nat)
    (o : SendOutcome) (ho : script a = o) :
    (a, tx0, o) ::
      (List.range e).map
        (fun i => (a + 1 + i, txAtFrom script (applyOutcome o tx0) (a + 1) i,
          script (a + 1 + i))) =
    (List.range (e + 1)).map (fun i => (a + i, txAtFrom script tx0 a i, script (a + i))) := by
  rw [← ho]
  exact range_map_signed_shift script tx0 a e

/-- Master lemma: the signing events of a `send_tx` run list the executed
attempts `a, a+1, …` in order, each signing the value of `tx_local`
obtained by applying the preceding outcomes to its starting value, and the
number of attempts never exceeds the remaining fuel. -/
theorem sendTxGo_signedTxs (script : Nat → SendOutcome) (mt lr : Nat) :
    ∀ rem a heap, lr < heap.length →
      ∃ e, e ≤ rem ∧
        signedTxs (sendTxGo script mt lr a rem heap).2.2 =
          (List.range e).map
            (fun i => (a + i, txAtFrom script (heap.getD lr default) a i, script (a + i))) := by
  intro rem
  induction rem with
  | zero =>
    intro a heap _
    exact ⟨0, Nat.le_refl 0, by simp [sendTxGo, signedTxs_nil]⟩
  | succ r ih =>
    intro a heap hlr
    cases ho : script a with
    | success n =>
      refine ⟨1, by omega, ?_⟩
      rw [sendTxGo_succ script mt lr a r heap n ho, signedTxs_cons_signed, signedTxs_nil]
      exact range_one_signed script _ a _ ho
    | underpriced =>
      by_cases hlt : a < mt
      · obtain ⟨e, he, heq⟩ :=
          ih (a+1) (heap.set lr (bumpTx (heap.getD lr default))) (by simpa using hlr)
        rw [listGetD_set_self _ _ _ _ hlr] at heq
        refine ⟨e + 1, by omega, ?_⟩
        rw [sendTxGo_under_cont script mt lr a r heap ho hlt, signedTxs_cons_signed,
          signedTxs_cons_outerSleep, heq]
        exact range_succ_signed script _ a e .underpriced ho
      · refine ⟨1, by omega, ?_⟩
        rw [sendTxGo_under_last script mt lr a r heap ho hlt, signedTxs_cons_signed,
          signedTxs_nil]
        exact range_one_signed script _ a _ ho
    | connectionError =>
      by_cases hlt : a < mt
      · obtain ⟨e, he, heq⟩ := ih (a+1) heap hlr
        refine ⟨e + 1, by omega, ?_⟩
        rw [sendTxGo_conn_cont script mt lr a r heap ho hlt, signedTxs_cons_signed,
          signedTxs_cons_innerReinit, signedTxs_cons_outerReinit, signedTxs_cons_outerSleep,
          heq]
        exact range_succ_signed script _ a e .connectionError ho
      · refine ⟨1, by omega, ?_⟩
        rw [sendTxGo_conn_last script mt lr a r heap ho hlt, signedTxs_cons_signed,
          signedTxs_cons_innerReinit, signedTxs_cons_outerReinit, signedTxs_nil]
        exact range_one_signed script _ a _ ho
    | otherValue m =>
      by_cases hlt : a < mt
      · obtain ⟨e, he, heq⟩ := ih (a+1) heap hlr
        refine ⟨e + 1, by omega, ?_⟩
        rw [sendTxGo_vother_cont script mt lr a r heap m ho hlt, signedTxs_cons_signed,
          signedTxs_cons_outerSleep, heq]
        exact range_succ_signed script _ a e (.otherValue m) ho
      · refine ⟨1, by omega, ?_⟩
        rw [sendTxGo_vother_last script mt lr a r heap m ho hlt, signedTxs_cons_signed,
          signedTxs_nil]
        exact range_one_signed script _ a _ ho
    | otherExc c =>
      refine ⟨1, by omega, ?_⟩
      rw [sendTxGo_exc script mt lr a r heap c ho, signedTxs_cons_signed,
        signedTxs_cons_innerReinit, signedTxs_nil]
      exact range_one_signed script _ a _ ho

/-- The `send_tx` loop never writes to any heap cell other than `tx_local`. -/
theorem sendTxGo_heap_frame (script : Nat → SendOutcome) (mt lr : Nat) :
    ∀ rem a heap j (d : TxData), j ≠ lr →
      ((sendTxGo script mt lr a rem heap).2.1).getD j d = heap.getD j d := by
  intro rem
  induction rem with
  | zero => intro a heap j d _; rfl
  | succ r ih =>
    intro a heap j d hj
    cases ho : script a with
    | success n => rw [sendTxGo_succ script mt lr a r heap n ho]
    | underpriced =>
      by_cases hlt : a < mt
      · rw [sendTxGo_under_cont script mt lr a r heap ho hlt]
        rw [ih (a+1) _ j d hj]
        exact listGetD_set_ne _ _ _ _ _ (Ne.symm hj)
      · rw [sendTxGo_under_last script mt lr a r heap ho hlt]
        exact listGetD_set_ne _ _ _ _ _ (Ne.symm hj)
    | connectionError =>
      by_cases hlt : a < mt
      · rw [sendTxGo_conn_cont script mt lr a r heap ho hlt]
        exact ih (a+1) heap j d hj
      · rw [sendTxGo_conn_last script mt lr a r heap ho hlt]
    | otherValue m =>
      by_cases hlt : a < mt
      · rw [sendTxGo_vother_cont script mt lr a r heap m ho hlt]
        exact ih (a+1) heap j d hj
      · rw [sendTxGo_vother_last script mt lr a r heap m ho hlt]
    | otherExc c => rw [sendTxGo_exc script mt lr a r heap c ho]

/-! ### Step lemmas for the `call_with_retries` loop -/

theorem cwrGo_ok {α : Type} (script : Nat → CallOutcome α) (mt : Nat) (flag : Bool)
    (a r : Nat) (x : α) (ho : script a = .ok x) :
    cwrGo script mt flag a (r+1) = (.ok (some x), [.invoke a]) := by
  simp [cwrGo, ho]

theorem cwrGo_conn_cont {α : Type} (script : Nat → CallOutcome α) (mt : Nat) (flag : Bool)
    (a r : Nat) (ho : script a = .connErr) (hlt : a < mt) :
    cwrGo script mt flag a (r+1) =
      ((cwrGo script mt flag (a+1) r).1,
       .invoke a :: ((if flag then [.reinit] else []) ++ .sleep :: (cwrGo script mt flag (a+1) r).2)) := by
  simp [cwrGo, ho, hlt]

theorem cwrGo_conn_last {α : Type} (script : Nat → CallOutcome α) (mt : Nat) (flag : Bool)
    (a r : Nat) (ho : script a = .connErr) (hge : ¬ a < mt) :
    cwrGo script mt flag a (r+1) =
      (.error .connection, .invoke a :: (if flag then [.reinit] else [])) := by
  simp [cwrGo, ho, hge]

theorem cwrGo_vretry_cont {α : Type} (script : Nat → CallOutcome α) (mt : Nat) (flag : Bool)
    (a r : Nat) (ho : script a = .valueErrRetryable) (hlt : a < mt) :
    cwrGo script mt flag a (r+1) =
      ((cwrGo script mt flag (a+1) r).1,
       .invoke a :: .sleep :: (cwrGo script mt flag (a+1) r).2) := by
  simp [cwrGo, ho, hlt]

theorem cwrGo_vretry_last {α : Type} (script : Nat → CallOutcome α) (mt : Nat) (flag : Bool)
    (a r : Nat) (ho : script a = .valueErrRetryable) (hge : ¬ a < mt) :
    cwrGo script mt flag a (r+1) = (.error .underpriced, [.invoke a]) := by
  simp [cwrGo, ho, hge]

theorem cwrGo_vother_cont {α : Type} (script : Nat → CallOutcome α) (mt : Nat) (flag : Bool)
    (a r m : Nat) (ho : script a = .valueErrOther m) (hlt : a < mt) :
    cwrGo script mt flag a (r+1) =
      ((cwrGo script mt flag (a+1) r).1,
       .invoke a :: .sleep :: (cwrGo script mt flag (a+1) r).2) := by
  simp [cwrGo, ho, hlt]

theorem cwrGo_vother_last {α : Type} (script : Nat → CallOutcome α) (mt : Nat) (flag : Bool)
    (a r m : Nat) (ho : script a = .valueErrOther m) (hge : ¬ a < mt) :
    cwrGo script mt flag a (r+1) = (.error (.valueErr m), [.invoke a]) := by
  simp [cwrGo, ho, hge]

theorem cwrGo_exc_cont {α : Type} (script : Nat → CallOutcome α) (mt : Nat) (flag : Bool)
    (a r c : Nat) (ho : script a = .otherExc c) (hlt : a < mt) :
    cwrGo script mt flag a (r+1) =
      ((cwrGo script mt flag (a+1) r).1,
       .invoke a :: ((if flag then [.reinit] else []) ++ .sleep :: (cwrGo script mt flag (a+1) r).2)) := by
  simp [cwrGo, ho, hlt]

theorem cwrGo_exc_last {α : Type} (script : Nat → CallOutcome α) (mt : Nat) (flag : Bool)
    (a r c : Nat) (ho : script a = .otherExc c) (hge : ¬ a < mt) :
    cwrGo script mt flag a (r+1) =
      (.error (.fatal c), .invoke a :: (if flag then [.reinit] else [])) := by
  simp [cwrGo, ho, hge]

/-- Every executed `call_with_retries` iteration's trace opens with its own
invocation event. -/
theorem cwrGo_head {α : Type} (script : Nat → CallOutcome α) (mt : Nat) (flag : Bool)
    (a r : Nat) :
    ∃ rest, (cwrGo script mt flag a (r+1)).2 = .invoke a :: rest := by
  cases ho : script a with
  | ok x => exact ⟨[], by rw [cwrGo_ok script mt flag a r x ho]⟩
  | connErr =>
    by_cases hlt : a < mt
    · exact ⟨_, by rw [cwrGo_conn_cont script mt flag a r ho hlt]⟩
    · exact ⟨_, by rw [cwrGo_conn_last script mt flag a r ho hlt]⟩
  | valueErrRetryable =>
    by_cases hlt : a < mt
    · exact ⟨_, by rw [cwrGo_vretry_cont script mt flag a r ho hlt]⟩
    · exact ⟨[], by rw [cwrGo_vretry_last script mt flag a r ho hlt]⟩
  | valueErrOther m =>
    by_cases hlt : a < mt
    · exact ⟨_, by rw [cwrGo_vother_cont script mt flag a r m ho hlt]⟩
    · exact ⟨[], by rw [cwrGo_vother_last script mt flag a r m ho hlt]⟩
  | otherExc c =>
    by_cases hlt : a < mt
    · exact ⟨_, by rw [cwrGo_exc_cont script mt flag a r c ho hlt]⟩
    · exact ⟨_, by rw [cwrGo_exc_last script mt flag a r c ho hlt]⟩

theorem reinitsBetween_cons_skip (e : Ev) (tr : List Ev) (k : Nat)
    (h : e.isInvokeAt k = false) : reinitsBetween (e :: tr) k = reinitsBetween tr k := by
  simp [reinitsBetween, List.dropWhile_cons, h]

theorem reinitsBetween_at_head (k : Nat) (rest : List Ev) :
    reinitsBetween (Ev.invoke k :: rest) k =
      (rest.takeWhile (fun e => !(e.isInvoke))).countP Ev.isReinit := by
  simp [reinitsBetween, List.dropWhile_cons, Ev.isInvokeAt]

/-- Between a connection-error attempt `k` and the next attempt,
`call_with_retries` performs exactly one provider re-initialisation when
the flag is set and none when it is not. -/
theorem cwrGo_reinits {α : Type} (script : Nat → CallOutcome α) (mt : Nat) (flag : Bool)
    (k : Nat) (hk : k < mt) (hck : script k = .connErr) :
    ∀ rem a, a + rem = mt + 1 → a ≤ k →
      (∀ j, a ≤ j → j < k → (script j).isOk = false) →
      reinitsBetween (cwrGo script mt flag a rem).2 k = if flag then 1 else 0 := by
  intro rem
  induction rem with
  | zero => intro a hinv hak _; omega
  | succ r ih =>
    intro a hinv hak hprev
    rcases Nat.eq_or_lt_of_le hak with heq | hlt
    · subst heq
      obtain ⟨r', hr'⟩ : ∃ r', r = r' + 1 := ⟨r - 1, by omega⟩
      subst hr'
      rw [cwrGo_conn_cont script mt flag a (r'+1) hck hk]
      obtain ⟨rest, hrest⟩ := cwrGo_head script mt flag (a+1) r'
      rw [reinitsBetween_at_head, hrest]
      cases flag with
      | false =>
        simp [List.takeWhile_cons, Ev.isInvoke, Ev.isReinit]
      | true =>
        simp [List.takeWhile_cons, Ev.isInvoke, Ev.isReinit]
    · have hne : Ev.isInvokeAt k (Ev.invoke a) = false := by
        simp only [Ev.isInvokeAt, beq_eq_false_iff_ne, ne_eq]
        omega
      have hns : Ev.isInvokeAt k Ev.sleep = false := rfl
      have hnr : Ev.isInvokeAt k Ev.reinit = false := rfl
      have hok := hprev a (Nat.le_refl a) hlt
      have hamt : a < mt := by omega
      have ihnext := ih (a+1) (by omega) (by omega)
        (fun j h1 h2 => hprev j (by omega) h2)
      cases ho : script a with
      | ok x => rw [ho] at hok; simp [CallOutcome.isOk] at hok
      | connErr =>
        rw [cwrGo_conn_cont script mt flag a r ho hamt]
        cases flag with
        | false =>
          simpa [reinitsBetween_cons_skip _ _ _ hne, reinitsBetween_cons_skip _ _ _ hns]
            using ihnext
        | true =>
          simpa [reinitsBetween_cons_skip _ _ _ hne, reinitsBetween_cons_skip _ _ _ hnr,
            reinitsBetween_cons_skip _ _ _ hns] using ihnext
      | valueErrRetryable =>
        rw [cwrGo_vretry_cont script mt flag a r ho hamt]
        simpa [reinitsBetween_cons_skip _ _ _ hne, reinitsBetween_cons_skip _ _ _ hns]
          using ihnext
      | valueErrOther m =>
        rw [cwrGo_vother_cont script mt flag a r m ho hamt]
        simpa [reinitsBetween_cons_skip _ _ _ hne, reinitsBetween_cons_skip _ _ _ hns]
          using ihnext
      | otherExc c =>
        rw [cwrGo_exc_cont script mt flag a r c ho hamt]
        cases flag with
        | false =>
          simpa [reinitsBetween_cons_skip _ _ _ hne, reinitsBetween_cons_skip _ _ _ hns]
            using ihnext
        | true =>
          simpa [reinitsBetween_cons_skip _ _ _ hne, reinitsBetween_cons_skip _ _ _ hnr,
            reinitsBetween_cons_skip _ _ _ hns] using ihnext

/-- With the reinitialisation flag disabled, `call_with_retries` never
re-initialises the provider. -/
theorem cwrGo_no_reinit {α : Type} (script : Nat → CallOutcome α) (mt : Nat) :
    ∀ rem a, reinitCount (cwrGo script mt false a rem).2 = 0 := by
  intro rem
  induction rem with
  | zero => intro a; rfl
  | succ r ih =>
    intro a
    cases ho : script a with
    | ok x => rw [cwrGo_ok script mt false a r x ho]; rfl
    | connErr =>
      by_cases hlt : a < mt
      · rw [cwrGo_conn_cont script mt false a r ho hlt]
        simpa [reinitCount, List.countP_cons, Ev.isReinit] using ih (a+1)
      · rw [cwrGo_conn_last script mt false a r ho hlt]; rfl
    | valueErrRetryable =>
      by_cases hlt : a < mt
      · rw [cwrGo_vretry_cont script mt false a r ho hlt]
        simpa [reinitCount, List.countP_cons, Ev.isReinit] using ih (a+1)
      · rw [cwrGo_vretry_last script mt false a r ho hlt]; rfl
    | valueErrOther m =>
      by_cases hlt : a < mt
      · rw [cwrGo_vother_cont script mt false a r m ho hlt]
        simpa [reinitCount, List.countP_cons, Ev.isReinit] using ih (a+1)
      · rw [cwrGo_vother_last script mt false a r m ho hlt]; rfl
    | otherExc c =>
      by_cases hlt : a < mt
      · rw [cwrGo_exc_cont script mt false a r c ho hlt]
        simpa [reinitCount, List.countP_cons, Ev.isReinit] using ih (a+1)
      · rw [cwrGo_exc_last script mt false a r c ho hlt]; rfl

/-- When every attempt raises an unrecognised exception,
`call_with_retries` keeps retrying until the attempts are exhausted and
only then re-raises the last error. -/
theorem cwrGo_all_exc {α : Type} (script : Nat → CallOutcome α) (mt : Nat) (flag : Bool)
    (c : Nat → Nat) (hall : ∀ k, 1 ≤ k → k ≤ mt → script k = .otherExc (c k)) :
    ∀ rem a, a + rem = mt + 1 → 1 ≤ a → a ≤ mt →
      (cwrGo script mt flag a rem).1 = .error (.fatal (c mt))
      ∧ invokeCount (cwrGo script mt flag a rem).2 = rem := by
  intro rem
  induction rem with
  | zero => intro a hinv ha hamt; omega
  | succ r ih =>
    intro a hinv ha _
    have ho := hall a ha (by omega)
    cases r with
    | zero =>
      have hge : ¬ a < mt := by omega
      have hamt : a = mt := by omega
      rw [cwrGo_exc_last script mt flag a 0 (c a) ho hge]
      subst hamt
      refine ⟨rfl, ?_⟩
      cases flag <;> simp [invokeCount, List.countP_cons, Ev.isInvoke]
    | succ r' =>
      have hlt : a < mt := by omega
      rw [cwrGo_exc_cont script mt flag a (r'+1) (c a) ho hlt]
      obtain ⟨h1, h2⟩ := ih (a+1) (by omega) (by omega) (by omega)
      refine ⟨h1, ?_⟩
      simp only [invokeCount] at h2 ⊢
      cases flag <;>
        simp [List.countP_cons, List.countP_append, Ev.isInvoke, h2]

/-! ### Gas-price evolution under consecutive underpriced outcomes -/

theorem bumpTx_gasPrice (tx : TxData) : (bumpTx tx).gasPrice = bumpGas tx.gasPrice := rfl

theorem bumpGas_le (g : Nat) : g ≤ bumpGas g := by
  simp only [bumpGas]
  rw [Nat.le_div_iff_mul_le (by omega : 0 < 5)]
  omega

theorem bumpGas_lt (g : Nat) (h5 : 5 ≤ g) : g < bumpGas g := by
  have h : g + 1 ≤ bumpGas g := by
    simp only [bumpGas]
    rw [Nat.le_div_iff_mul_le (by omega : 0 < 5)]
    omega
  omega

theorem txAtFrom_gasPrice_under (script : Nat → SendOutcome) (tx : TxData) (a : Nat) :
    ∀ i, (∀ j, a ≤ j → j < a + i → script j = .underpriced) →
      (txAtFrom script tx a i).gasPrice = bumpGas^[i] tx.gasPrice := by
  intro i
  induction i with
  | zero => intro _; rfl
  | succ i ih =>
    intro h
    simp only [txAtFrom]
    rw [h (a + i) (by omega) (by omega)]
    simp only [applyOutcome, bumpTx_gasPrice]
    rw [ih (fun j h1 h2 => h j h1 (by omega))]
    rw [Function.iterate_succ_apply']

/-- With `N` consecutive underpriced broadcasts followed by acceptance,
the `send_tx` loop signs exactly `N + 1` payloads, the `i`-th carrying the
`i`-fold gas bump of the built price. -/
theorem sendTxGo_run (script : Nat → SendOutcome) (mt lr n : Nat) :
    ∀ N a rem heap, lr < heap.length → a + rem = mt + 1 → a + N ≤ mt →
      (∀ j, a ≤ j → j < a + N → script j = .underpriced) →
      script (a + N) = .success n →
      signedTxs (sendTxGo script mt lr a rem heap).2.2 =
        (List.range (N + 1)).map
          (fun i => (a + i, txAtFrom script (heap.getD lr default) a i, script (a + i))) := by
  intro N
  induction N with
  | zero =>
    intro a rem heap hlr hinv hle hund hsucc
    have ha : script a = .success n := by simpa using hsucc
    obtain ⟨r, rfl⟩ : ∃ r, rem = r + 1 := ⟨rem - 1, by omega⟩
    rw [sendTxGo_succ script mt lr a r heap n ha, signedTxs_cons_signed, signedTxs_nil]
    exact range_one_signed script _ a _ ha
  | succ N ihN =>
    intro a rem heap hlr hinv hle hund hsucc
    have ha : script a = .underpriced := hund a (Nat.le_refl a) (by omega)
    have hlt : a < mt := by omega
    obtain ⟨r, rfl⟩ : ∃ r, rem = r + 1 := ⟨rem - 1, by omega⟩
    rw [sendTxGo_under_cont script mt lr a r heap ha hlt, signedTxs_cons_signed,
      signedTxs_cons_outerSleep]
    have hsucc' : script (a + 1 + N) = .success n := by
      have h : a + 1 + N = a + (N + 1) := by omega
      rw [h]; exact hsucc
    have hrec := ihN (a+1) r (heap.set lr (bumpTx (heap.getD lr default)))
      (by simpa using hlr) (by omega) (by omega)
      (fun j hj1 hj2 => hund j (by omega) (by omega)) hsucc'
    rw [hrec, listGetD_set_self _ _ _ _ hlr]
    exact range_succ_signed script _ a (N+1) .underpriced ha

/-! ### Exhaustion and termination of the `send_tx` loop -/

/-- When every attempt fails with one of the failures `send_tx` retries,
the loop runs to exhaustion and re-raises the error of the final attempt. -/
theorem sendTxGo_exhaust (script : Nat → SendOutcome) (mt lr : Nat)
    (hfail : ∀ k, 1 ≤ k → k ≤ mt → (script k).retryableFail = true) :
    ∀ rem a heap, a + rem = mt + 1 → 1 ≤ a → a ≤ mt →
      (sendTxGo script mt lr a rem heap).1 = .error (errOfOutcome (script mt)) := by
  intro rem
  induction rem with
  | zero => intro a heap hinv ha hamt; omega
  | succ r ih =>
    intro a heap hinv ha _
    have hfa := hfail a ha (by omega)
    cases r with
    | zero =>
      have hge : ¬ a < mt := by omega
      have hamt : a = mt := by omega
      subst hamt
      cases ho : script a with
      | success n => rw [ho] at hfa; simp [SendOutcome.retryableFail] at hfa
      | underpriced =>
        rw [sendTxGo_under_last script a lr a 0 heap ho hge]; rfl
      | connectionError =>
        rw [sendTxGo_conn_last script a lr a 0 heap ho hge]; rfl
      | otherValue m =>
        rw [sendTxGo_vother_last script a lr a 0 heap m ho hge]; rfl
      | otherExc c => rw [ho] at hfa; simp [SendOutcome.retryableFail] at hfa
    | succ r' =>
      have hlt : a < mt := by omega
      cases ho : script a with
      | success n => rw [ho] at hfa; simp [SendOutcome.retryableFail] at hfa
      | underpriced =>
        rw [sendTxGo_under_cont script mt lr a (r'+1) heap ho hlt]
        exact ih (a+1) _ (by omega) (by omega) (by omega)
      | connectionError =>
        rw [sendTxGo_conn_cont script mt lr a (r'+1) heap ho hlt]
        exact ih (a+1) _ (by omega) (by omega) (by omega)
      | otherValue m =>
        rw [sendTxGo_vother_cont script mt lr a (r'+1) heap m ho hlt]
        exact ih (a+1) _ (by omega) (by omega) (by omega)
      | otherExc c => rw [ho] at hfa; simp [SendOutcome.retryableFail] at hfa

/-- With at least one loop iteration available, the `send_tx` loop always
returns or re-raises from within the loop: the terminal
`All attempts have failed` exception after the loop is unreachable. -/
theorem sendTxGo_ne_allFailed (script : Nat → SendOutcome) (mt lr : Nat) :
    ∀ rem a heap, a + rem = mt + 1 → 1 ≤ rem →
      (sendTxGo script mt lr a rem heap).1 ≠ .error .allFailed := by
  intro rem
  induction rem with
  | zero => intro a heap hinv h; omega
  | succ r ih =>
    intro a heap hinv _
    cases ho : script a with
    | success n => rw [sendTxGo_succ script mt lr a r heap n ho]; simp
    | underpriced =>
      by_cases hlt : a < mt
      · rw [sendTxGo_under_cont script mt lr a r heap ho hlt]
        exact ih (a+1) _ (by omega) (by omega)
      · rw [sendTxGo_under_last script mt lr a r heap ho hlt]; simp
    | connectionError =>
      by_cases hlt : a < mt
      · rw [sendTxGo_conn_cont script mt lr a r heap ho hlt]
        exact ih (a+1) _ (by omega) (by omega)
      · rw [sendTxGo_conn_last script mt lr a r heap ho hlt]; simp
    | otherValue m =>
      by_cases hlt : a < mt
      · rw [sendTxGo_vother_cont script mt lr a r heap m ho hlt]
        exact ih (a+1) _ (by omega) (by omega)
      · rw [sendTxGo_vother_last script mt lr a r heap m ho hlt]; simp
    | otherExc c => rw [sendTxGo_exc script mt lr a r heap c ho]; simp

/-! ### The confirmation waiter under persistent timeouts -/

theorem range_map_poll_shift (t p a e : Nat) :
    WaitEv.poll a t p :: (List.range e).map (fun i => WaitEv.poll (a + 1 + i) t p) =
      (List.range (e + 1)).map (fun i => WaitEv.poll (a + i) t p) := by
  rw [List.range_succ_eq_map]
  simp only [List.map_cons, List.map_map]
  congr 1
  refine listMapCongr _ _ _ (fun i _ => ?_)
  simp only [Function.comp_apply]
  congr 1
  omega

theorem waitGo_timeout_cont (script : Nat → WaitOutcome) (t p m a r : Nat)
    (ho : script a = .timedOut) (hlt : a < m) :
    waitGo script t p m a (r+1) =
      ((waitGo script t p m (a+1) r).1,
       .poll a t p :: (waitGo script t p m (a+1) r).2) := by
  simp [waitGo, ho, hlt]

theorem waitGo_timeout_last (script : Nat → WaitOutcome) (t p m a r : Nat)
    (ho : script a = .timedOut) (hge : ¬ a < m) :
    waitGo script t p m a (r+1) = (.error .timeExhausted, [.poll a t p]) := by
  simp [waitGo, ho, hge]

/-- If the transaction is never observed included, the waiter runs exactly
the remaining rounds, each with the same timeout, and then re-raises
`TimeExhausted`. -/
theorem waitGo_all_timeout (script : Nat → WaitOutcome) (t p m : Nat)
    (hall : ∀ k, script k = .timedOut) :
    ∀ rem a, a + rem = m + 1 → 1 ≤ rem →
      waitGo script t p m a rem =
        (.error .timeExhausted, (List.range rem).map (fun i => .poll (a + i) t p)) := by
  intro rem
  induction rem with
  | zero => intro a hinv h; omega
  | succ r ih =>
    intro a hinv _
    cases r with
    | zero =>
      have hge : ¬ a < m := by omega
      rw [waitGo_timeout_last script t p m a 0 (hall a) hge]
      rfl
    | succ r' =>
      have hlt : a < m := by omega
      rw [waitGo_timeout_cont script t p m a (r'+1) (hall a) hlt,
        ih (a+1) (by omega) (by omega), ← range_map_poll_shift t p a (r'+1)]

theorem range_getElem? (n i : Nat) :
    (List.range n)[i]? = if i < n then some i else none := by
  by_cases h : i < n
  · rw [if_pos h, List.getElem?_eq_getElem (by simpa using h)]
    simp
  · rw [if_neg h]
    exact List.getElem?_eq_none (by simpa using h)

/-! ### The claims -/

/-- C1: the claim says the fee reported after confirmation equals
`gasUsed × gasPriceOfWinningAttempt`.  The code violates it: `send_tx`
bumps only its internal copy of the dict, and `swap_ini_to_usdt` computes
`receipt.gasUsed * tx_data['gasPrice']` from the caller's unchanged dict.
At initial price 10 gwei with one underpriced bump to 12 gwei and
`gasUsed = 7`, the reported fee is `7 × 10¹⁰` (stale price), while the
winning attempt's price is `12 × 10⁹`, so the claimed fee would be
`84 × 10⁹ ≠ 70 × 10⁹`. -/
theorem claim1_fee_uses_stale_price :
    (swapIniToUsdt (fun _ => 5) (underpricedThenSuccess 1 99)
        (fun _ => .included ⟨100, 7, 1⟩) 500 0).1 = .ok 70000000000
    ∧ winningGasPrice
        ((swapIniToUsdt (fun _ => 5) (underpricedThenSuccess 1 99)
          (fun _ => .included ⟨100, 7, 1⟩) 500 0).2) = some 12000000000
    ∧ (7 * 12000000000 : Nat) = 84000000000
    ∧ (70000000000 : Nat) ≠ 84000000000 :=
  ⟨rfl, rfl, rfl, by decide⟩

/-- C2 counterexample: at initial integer gas price 3 with one underpriced
outcome (N = 1 < 3 = max attempts), the code signs attempt 2 at price 3
(`int(3 * 1.2) = 3`), whereas the claim's ceiling bump and
`round(p × 1.2^(k-1))` formula both predict 4, and the sequence `[3, 3]`
is not strictly increasing. -/
theorem claim2_counterexample :
    signedGasPrices ((sendTx (underpricedThenSuccess 1 9)
        [{ sampleTx with gasPrice := 3 }] 0 3).2.2) = [3, 3]
    ∧ specCeilBump 3 = 4
    ∧ specRoundPrice 3 2 = 4
    ∧ ¬ (3 : Nat) < 3 :=
  ⟨rfl, rfl, rfl, by decide⟩

/-- C2 (amended): for every built transaction and every `N` consecutive
underpriced outcomes with `N` < max attempts, the gas price signed on
attempt `k` is the `(k-1)`-fold iterate of the truncating bump
`g ↦ ⌊g × 1.2⌋ = 6g/5` (not the ceiling, and not
`round(p × 1.2^(k-1))`); the sequence never decreases, and strictly
increases from any price ≥ 5. -/
theorem claim2_amended (tx : TxData) (N n mt : Nat) (hN : N + 1 ≤ mt) :
    signedGasPrices ((sendTx (underpricedThenSuccess N n) [tx] 0 mt).2.2) =
      (List.range (N + 1)).map (fun i => bumpGas^[i] tx.gasPrice)
    ∧ (∀ g, g ≤ bumpGas g)
    ∧ (∀ g, 5 ≤ g → g < bumpGas g) := by
  refine ⟨?_, bumpGas_le, bumpGas_lt⟩
  have hrun := sendTxGo_run (underpricedThenSuccess N n) mt 1 n N 1 mt [tx, tx]
    (by simp) (by omega) (by omega)
    (fun j hj1 hj2 => by
      simp only [underpricedThenSuccess]
      rw [if_pos (by omega)])
    (by
      simp only [underpricedThenSuccess]
      rw [if_neg (by omega)])
  have hrun' : signedTxs (sendTx (underpricedThenSuccess N n) [tx] 0 mt).2.2 =
      (List.range (N + 1)).map
        (fun i => (1 + i, txAtFrom (underpricedThenSuccess N n) tx 1 i,
          underpricedThenSuccess N n (1 + i))) := hrun
  simp only [signedGasPrices]
  rw [hrun', List.map_map]
  refine listMapCongr _ _ _ (fun i hi => ?_)
  simp only [Function.comp_apply]
  exact txAtFrom_gasPrice_under (underpricedThenSuccess N n) tx 1 i
    (fun j hj1 hj2 => by
      have hi' := List.mem_range.mp hi
      simp only [underpricedThenSuccess]
      rw [if_pos (by omega)])

/-- C2 witness: the amended statement instantiated at `sampleTx`
(price 10), one underpriced outcome, max attempts 3. -/
theorem claim2_amended_witness :
    signedGasPrices ((sendTx (underpricedThenSuccess 1 9) [sampleTx] 0 3).2.2) =
      (List.range 2).map (fun i => bumpGas^[i] sampleTx.gasPrice)
    ∧ (∀ g, g ≤ bumpGas g)
    ∧ (∀ g, 5 ≤ g → g < bumpGas g) :=
  claim2_amended sampleTx 1 9 3 (by decide)

/-- C3 counterexample: with the sender's pending-transaction count moving
from 5 (fetched at build time) to 6 before attempt 2, and attempt 1
failing with a `ConnectionError`, `approve_usdt`'s retry signs attempt 2
with the stale nonce 5, not the count 6 a fresh fetch before that attempt
would return: no rebuild happens. -/
theorem claim3_counterexample :
    signedNonceAt ((approveUsdt (fun k => 4 + k)
        (fun k => if k = 1 then .connectionError else .success 9)
        (fun _ => .included ⟨100, 7, 1⟩) 777).2) 2 = some 5
    ∧ (fun k : Nat => 4 + k) 2 = 6
    ∧ signedNonceAt ((approveUsdt (fun k => 4 + k)
        (fun k => if k = 1 then .connectionError else .success 9)
        (fun _ => .included ⟨100, 7, 1⟩) 777).2) 2 ≠ some ((fun k : Nat => 4 + k) 2) :=
  ⟨rfl, rfl, by decide⟩

/-- C3 (amended): after a connection-error retry `send_tx` reconnects but
performs no rebuild: every payload it signs — including those signed after
reconnects — carries the nonce fetched at build time, before the first
attempt. -/
theorem claim3_amended (script : Nat → SendOutcome) (heap : List TxData)
    (txRef mt k : Nat) (tx : TxData) (o : SendOutcome)
    (hmem : SendEv.signed k tx o ∈ (sendTx script heap txRef mt).2.2) :
    tx.nonce = (heap.getD txRef default).nonce := by
  obtain ⟨e, _, heq⟩ := sendTxGo_signedTxs script mt heap.length mt 1
      (heap ++ [heap.getD txRef default]) (by simp)
  have hmem2 : (k, tx, o) ∈
      signedTxs (sendTxGo script mt heap.length 1 mt
        (heap ++ [heap.getD txRef default])).2.2 :=
    List.mem_filterMap.mpr ⟨_, hmem, rfl⟩
  rw [heq] at hmem2
  obtain ⟨i, hi, hval⟩ := List.mem_map.mp hmem2
  have htx : txAtFrom script
      ((heap ++ [heap.getD txRef default]).getD heap.length default) 1 i = tx :=
    congrArg (fun x => x.2.1) hval
  rw [← htx, txAtFrom_nonce, listGetD_concat_length]

/-- C3 witness: the amended statement instantiated at a run whose first
attempt hits a `ConnectionError` and whose second succeeds. -/
theorem claim3_amended_witness :
    sampleTx.nonce = ([sampleTx].getD 0 default).nonce :=
  claim3_amended (fun k => if k = 1 then .connectionError else .success 9)
    [sampleTx] 0 3 2 sampleTx (.success 9) (by decide)

/-- C4: in `call_with_retries`, a connection-error attempt that is not the
last is followed by exactly one provider re-initialisation before the next
attempt when the reinitialise flag is set; with the flag disabled no
re-initialisation ever happens. -/
theorem claim4_reconnect_policy (α : Type) (script : Nat → CallOutcome α)
    (mt : Nat) (flag : Bool) (k : Nat) (h1 : 1 ≤ k) (h2 : k < mt)
    (h3 : ∀ j, 1 ≤ j → j < k → (script j).isOk = false)
    (h4 : script k = .connErr) :
    reinitsBetween (callWithRetries script mt flag).2 k = (if flag then 1 else 0)
    ∧ (flag = false → reinitCount (callWithRetries script mt flag).2 = 0) := by
  constructor
  · exact cwrGo_reinits script mt flag k h2 h4 mt 1 (by omega) h1 h3
  · intro hf
    subst hf
    exact cwrGo_no_reinit script mt mt 1

/-- C4 witness: three connection errors with the flag set; the segment
after attempt 1 contains exactly one re-initialisation. -/
theorem claim4_witness :
    reinitsBetween (callWithRetries (fun _ => (CallOutcome.connErr : CallOutcome Nat))
        3 true).2 1 = (if true then 1 else 0)
    ∧ (true = false →
        reinitCount (callWithRetries (fun _ => (CallOutcome.connErr : CallOutcome Nat))
          3 true).2 = 0) :=
  claim4_reconnect_policy Nat (fun _ => CallOutcome.connErr) 3 true 1 (by decide)
    (by decide) (fun j hj1 hj2 => absurd hj2 (by omega)) rfl

/-- C5 counterexample: an unrecognised (fatal) exception on attempt 1 with
max attempts 3 is retried — the operation is invoked a second time and the
run even succeeds — contradicting the claim that such errors propagate
immediately after the failing attempt. -/
theorem claim5_counterexample :
    (callWithRetries (fun k => if k = 1 then CallOutcome.otherExc 7 else .ok 42)
        3 true).1 = .ok (some 42)
    ∧ invokeCount (callWithRetries
        (fun k => if k = 1 then CallOutcome.otherExc 7 else .ok 42) 3 true).2 = 2 :=
  ⟨rfl, rfl⟩

/-- C5 (amended): `call_with_retries` retries every error class, including
unrecognised ones (its catch-all `except Exception` sleeps and retries);
when every attempt raises an unrecognised error, the operation is invoked
exactly max-attempts times and the last error is re-raised only after the
final attempt. -/
theorem claim5_amended (α : Type) (script : Nat → CallOutcome α) (c : Nat → Nat)
    (mt : Nat) (flag : Bool) (h1 : 1 ≤ mt)
    (h2 : ∀ k, 1 ≤ k → k ≤ mt → script k = .otherExc (c k)) :
    (callWithRetries script mt flag).1 = .error (.fatal (c mt))
    ∧ invokeCount (callWithRetries script mt flag).2 = mt :=
  cwrGo_all_exc script mt flag c h2 mt 1 (by omega) (by omega) (by omega)

/-- C5 witness: two unrecognised errors with max attempts 2. -/
theorem claim5_amended_witness :
    (callWithRetries (fun k => (CallOutcome.otherExc k : CallOutcome Nat)) 2 true).1
        = .error (.fatal 2)
    ∧ invokeCount (callWithRetries
        (fun k => (CallOutcome.otherExc k : CallOutcome Nat)) 2 true).2 = 2 :=
  claim5_amended Nat (fun k => .otherExc k) (fun k => k) 2 true (by decide)
    (fun k _ _ => rfl)

/-- C6: despite `send_tx`'s own loop wrapping an inner single-attempt
`call_with_retries`, the broadcast operation is invoked at most `max_tries`
times; when every attempt fails with a retryable error, the loop exhausts
the configured attempts and propagates the last attempt's error. -/
theorem claim6_attempt_bound (script : Nat → SendOutcome) (heap : List TxData)
    (txRef mt : Nat) :
    signedCount (sendTx script heap txRef mt).2.2 ≤ mt
    ∧ (1 ≤ mt → (∀ k, 1 ≤ k → k ≤ mt → (script k).retryableFail = true) →
        (sendTx script heap txRef mt).1 = .error (errOfOutcome (script mt))) := by
  constructor
  · obtain ⟨e, he, heq⟩ := sendTxGo_signedTxs script mt heap.length mt 1
      (heap ++ [heap.getD txRef default]) (by simp)
    have heq' : signedTxs (sendTx script heap txRef mt).2.2 =
        (List.range e).map
          (fun i => (1 + i,
            txAtFrom script ((heap ++ [heap.getD txRef default]).getD heap.length default) 1 i,
            script (1 + i))) := heq
    simp only [signedCount]
    rw [heq']
    simpa using he
  · intro h1 hfail
    exact sendTxGo_exhaust script mt heap.length hfail mt 1
      (heap ++ [heap.getD txRef default]) (by omega) (by omega) (by omega)

/-- C6 witness: all three attempts underpriced; three broadcasts, then the
underpriced error of the final attempt is propagated. -/
theorem claim6_witness :
    signedCount (sendTx (fun _ => SendOutcome.underpriced) [sampleTx] 0 3).2.2 ≤ 3
    ∧ (sendTx (fun _ => SendOutcome.underpriced) [sampleTx] 0 3).1 =
        .error .underpriced :=
  ⟨(claim6_attempt_bound (fun _ => .underpriced) [sampleTx] 0 3).1,
   (claim6_attempt_bound (fun _ => .underpriced) [sampleTx] 0 3).2 (by decide)
     (fun k _ _ => rfl)⟩

/-- C7: when the transaction is never observed included, the waiter runs
exactly the configured number of polling rounds (at most that many), each
round launched with the same timeout, and then propagates the
`TimeExhausted` confirmation-timeout error instead of a receipt. -/
theorem claim7_wait_rounds (script : Nat → WaitOutcome) (t p m : Nat)
    (hall : ∀ k, script k = .timedOut) (hm : 1 ≤ m) :
    (waitForTxReceiptWithRetry script t p m).1 = .error .timeExhausted
    ∧ (waitForTxReceiptWithRetry script t p m).2 =
        (List.range m).map (fun i => .poll (1 + i) t p) := by
  have h := waitGo_all_timeout script t p m hall m 1 (by omega) (by omega)
  constructor
  · show (waitGo script t p m 1 m).1 = _
    rw [h]
  · show (waitGo script t p m 1 m).2 = _
    rw [h]

/-- C7 witness: at the defaults (timeout 300, poll latency 5, 2 rounds),
a never-included transaction yields two polls of 300 s each and then the
timeout error — 600 s of cumulative waiting. -/
theorem claim7_witness :
    (waitForTxReceiptWithRetry (fun _ => .timedOut) waitDefaultTimeout
        waitDefaultPollLatency waitDefaultMaxTries).1 = .error .timeExhausted
    ∧ (waitForTxReceiptWithRetry (fun _ => .timedOut) waitDefaultTimeout
        waitDefaultPollLatency waitDefaultMaxTries).2 =
      (List.range waitDefaultMaxTries).map
        (fun i => .poll (1 + i) waitDefaultTimeout waitDefaultPollLatency) :=
  claim7_wait_rounds (fun _ => .timedOut) waitDefaultTimeout waitDefaultPollLatency
    waitDefaultMaxTries (fun _ => rfl) (by decide)

/-- C8: between an underpriced attempt and the re-signed attempt that
follows it, every field of the pending transaction except the gas price —
nonce, gas limit, value, sender, target, payload — is unchanged, the gas
price is exactly the 20 % bump, and the attempt number advances by one. -/
theorem claim8_frame (script : Nat → SendOutcome) (heap : List TxData)
    (txRef mt i k k' : Nat) (tx₁ tx₂ : TxData) (o₂ : SendOutcome)
    (h1 : (signedTxs (sendTx script heap txRef mt).2.2)[i]? = some (k, tx₁, .underpriced))
    (h2 : (signedTxs (sendTx script heap txRef mt).2.2)[i+1]? = some (k', tx₂, o₂)) :
    tx₂.nonce = tx₁.nonce ∧ tx₂.gas = tx₁.gas ∧ tx₂.value = tx₁.value
    ∧ tx₂.sender = tx₁.sender ∧ tx₂.toAddr = tx₁.toAddr ∧ tx₂.payload = tx₁.payload
    ∧ tx₂.gasPrice = bumpGas tx₁.gasPrice ∧ k' = k + 1 := by
  obtain ⟨e, he, heq⟩ := sendTxGo_signedTxs script mt heap.length mt 1
      (heap ++ [heap.getD txRef default]) (by simp)
  have h1' : ((List.range e).map
      (fun i => (1 + i,
        txAtFrom script ((heap ++ [heap.getD txRef default]).getD heap.length default) 1 i,
        script (1 + i))))[i]? = some (k, tx₁, .underpriced) := by
    rw [← heq]; exact h1
  have h2' : ((List.range e).map
      (fun i => (1 + i,
        txAtFrom script ((heap ++ [heap.getD txRef default]).getD heap.length default) 1 i,
        script (1 + i))))[i+1]? = some (k', tx₂, o₂) := by
    rw [← heq]; exact h2
  rw [List.getElem?_map, range_getElem?] at h1' h2'
  by_cases hie : i < e
  · rw [if_pos hie] at h1'
    by_cases hie2 : i + 1 < e
    · rw [if_pos hie2] at h2'
      simp only [Option.map_some', Option.some.injEq, Prod.mk.injEq] at h1' h2'
      obtain ⟨hk1, htx1, ho1⟩ := h1'
      obtain ⟨hk2, htx2, ho2⟩ := h2'
      have htx2' : tx₂ = bumpTx tx₁ := by
        rw [← htx2]
        show applyOutcome (script (1 + i))
          (txAtFrom script ((heap ++ [heap.getD txRef default]).getD heap.length default) 1 i)
            = _
        rw [ho1, htx1]
        rfl
      subst htx2'
      exact ⟨rfl, rfl, rfl, rfl, rfl, rfl, rfl, by omega⟩
    · rw [if_neg hie2] at h2'
      simp at h2'
  · rw [if_neg hie] at h1'
    simp at h1'

/-- C8 witness: one underpriced attempt followed by the bumped re-sign at
price 12; all other fields coincide. -/
theorem claim8_witness :
    (bumpTx sampleTx).nonce = sampleTx.nonce ∧ (bumpTx sampleTx).gas = sampleTx.gas
    ∧ (bumpTx sampleTx).value = sampleTx.value
    ∧ (bumpTx sampleTx).sender = sampleTx.sender
    ∧ (bumpTx sampleTx).toAddr = sampleTx.toAddr
    ∧ (bumpTx sampleTx).payload = sampleTx.payload
    ∧ (bumpTx sampleTx).gasPrice = bumpGas sampleTx.gasPrice ∧ 2 = 1 + 1 :=
  claim8_frame (underpricedThenSuccess 1 9) [sampleTx] 0 3 0 1 2 sampleTx
    (bumpTx sampleTx) (.success 9) (by decide) (by decide)

/-- C9: `send_tx` works on `tx_data.copy()`; the caller's dict is the same
mapping after the call, gas bumps included — all mutation hits the copy. -/
theorem claim9_caller_unchanged (script : Nat → SendOutcome) (heap : List TxData)
    (txRef mt : Nat) (h : txRef < heap.length) :
    ((sendTx script heap txRef mt).2.1).getD txRef default = heap.getD txRef default := by
  show ((sendTxGo script mt heap.length 1 mt
      (heap ++ [heap.getD txRef default])).2.1).getD txRef default = _
  rw [sendTxGo_heap_frame script mt heap.length mt 1 _ txRef default (by omega)]
  exact listGetD_append_left heap _ txRef default h

/-- C9 witness: a run with an actual gas bump leaves the caller's dict
untouched. -/
theorem claim9_witness :
    ((sendTx (underpricedThenSuccess 1 9) [sampleTx] 0 3).2.1).getD 0 default
      = [sampleTx].getD 0 default :=
  claim9_caller_unchanged (underpricedThenSuccess 1 9) [sampleTx] 0 3 (by decide)

/-- C10: with `max_tries ≥ 1` every loop iteration of `send_tx` returns or
raises, so the final generic `All attempts have failed` exception is
unreachable; it fires exactly when `max_tries < 1` (empty loop). -/
theorem claim10_fallback_unreachable (script : Nat → SendOutcome)
    (heap : List TxData) (txRef mt : Nat) :
    (1 ≤ mt → (sendTx script heap txRef mt).1 ≠ .error .allFailed)
    ∧ (sendTx script heap txRef 0).1 = .error .allFailed := by
  constructor
  · intro h1
    exact sendTxGo_ne_allFailed script mt heap.length mt 1
      (heap ++ [heap.getD txRef default]) (by omega) (by omega)
  · rfl

/-- C10 witness: at `max_tries = 3` the fallback never fires; at
`max_tries = 0` it does. -/
theorem claim10_witness :
    (sendTx (underpricedThenSuccess 1 9) [sampleTx] 0 3).1 ≠ .error .allFailed
    ∧ (sendTx (underpricedThenSuccess 1 9) [sampleTx] 0 0).1 = .error .allFailed :=
  ⟨(claim10_fallback_unreachable (underpricedThenSuccess 1 9) [sampleTx] 0 3).1
      (by decide),
   (claim10_fallback_unreachable (underpricedThenSuccess 1 9) [sampleTx] 0 3).2⟩
